import Mathlib

/-! Shallow embedding of `src/Scrapper.py`, a batch-resumable scraper for a
MediaWiki chemical database, together with proofs about its behaviour.

Modelling conventions:
* HTTP is an oracle parameter.  A listing page is represented by the data the
  code extracts from it (the optional "next 500" href, resp. the list of
  `ul li a` anchor texts); a detail page is the list of its table rows, each
  row being the list of its cell texts (the result of `get_text`).  A network
  fault of `requests.get` is `Except.error ()`.
* Python string primitives (`str.lower`, `str.strip`, `str.split`,
  `str.startswith`, substring `in`) are re-implemented on `List Char`.
  `float`/`int` conversion is modelled for plain decimal literals
  (sign, digits, optional fractional part), which covers the mass values the
  code parses; `int(...)` truncates toward zero.
* The filesystem checkpoint directory is an association list from batch
  number to file content; `pandas.to_csv`/`read_csv` are modelled by a
  character-level CSV codec (minimal quoting, doubled quote characters, one
  header row, `\n` row terminator), so a checkpoint artifact is the list of
  characters of the file.
* The `ThreadPoolExecutor` of a batch is modelled by processing the batch's
  identifiers in list order: the set of fetches issued and the skip
  classification of each identifier do not depend on completion order.
* The unbounded `while True` pagination loop is given explicit fuel;
  a `none` result corresponds to a run of the source that never terminates.
-/

/-! Section: Python string primitives on character lists -/

/-- Substring occurrence test on character lists: models Python `pat in s`. -/
def subOccurs (pat : List Char) : List Char → Bool
  | [] => pat.isEmpty
  | c :: cs => List.isPrefixOf pat (c :: cs) || subOccurs pat cs

/-- Models Python `pat in s` for strings. -/
def containsSub (s pat : String) : Bool :=
  subOccurs pat.data s.data

/-- Models Python `s.lower()`. -/
def lowerStr (s : String) : String :=
  (s.data.map Char.toLower).asString

/-- Models Python `s.strip()`: drop whitespace from both ends. -/
def stripStr (s : String) : String :=
  (((s.data.dropWhile Char.isWhitespace).reverse.dropWhile Char.isWhitespace).reverse).asString

/-- Models Python `s.startswith(pat)`. -/
def startsWithStr (s pat : String) : Bool :=
  List.isPrefixOf pat.data s.data

/-- Models Python `s.split()[0]`: the first maximal run of non-whitespace
characters; `none` models the `IndexError` raised when `s.split()` is empty. -/
def firstToken (s : String) : Option String :=
  match s.data.dropWhile Char.isWhitespace with
  | [] => none
  | c :: cs => some ((c :: cs).takeWhile (fun x => !x.isWhitespace)).asString

/-- Parse an unsigned decimal literal: digits with at most one decimal point
and at least one digit.  Returns the mantissa and the number of digits after
the point, i.e. the value is `m / 10 ^ k`. -/
def parseMantissa : List Char → Bool → Nat → Nat → Bool → Option (Nat × Nat)
  | [], _, m, k, seenDigit => if seenDigit then some (m, k) else none
  | c :: rest, seenDot, m, k, seenDigit =>
    if c.isDigit then
      parseMantissa rest seenDot (10 * m + (c.toNat - 48)) (if seenDot then k + 1 else k) true
    else if c == '.' && !seenDot then
      parseMantissa rest true m k seenDigit
    else
      none

/-- Models Python `int(float(tok))` for decimal literals: parse `tok` as a
decimal number and truncate toward zero; `none` models the `ValueError` on a
malformed literal. -/
def pyFloatInt (tok : String) : Option Int :=
  match tok.data with
  | '+' :: rest => (parseMantissa rest false 0 0 false).map (fun p => ((p.1 / 10 ^ p.2 : Nat) : Int))
  | '-' :: rest => (parseMantissa rest false 0 0 false).map (fun p => -((p.1 / 10 ^ p.2 : Nat) : Int))
  | cs => (parseMantissa cs false 0 0 false).map (fun p => ((p.1 / 10 ^ p.2 : Nat) : Int))

/-! Section: constants (Scrapper.py lines 7-8) -/

def BASE_URL : String := "http://metabolomics.jp"

def LISTING_URL : String :=
  "http://metabolomics.jp/mediawiki/index.php?title=Special:WhatLinksHere/Index:FL&namespace=0&limit=500"

/-! Section: identifier extraction (`extract_ids`, lines 27-36)

A listing page is represented by the list of its `ul li a` anchor texts. -/

/-- Function `extract_ids`: strip each anchor text and keep it when its length is 12
and it starts with `"FL"`, in encounter order (the source's `for` loop with
`ids.append`). -/
def extract_ids (anchors : List String) : List String :=
  anchors.foldl
    (fun ids a =>
      let fid := stripStr a
      if fid.length == 12 && startsWithStr fid "FL" then ids ++ [fid] else ids)
    []

/-! Section: entry fetching (`fetch_entry`, lines 38-70) -/

/-- A detail page, reduced to what the code reads from it: the rows of all
tables, each row the list of its `td`/`th` cell texts. -/
abbrev DetailPage := List (List String)

/-- The three extraction fields accumulated by the row scan. -/
structure Fields where
  smiles : String
  systematic_name : String
  avg_mass : String
deriving DecidableEq

/-- Model of `str(int(float(value.split()[0])))` with the inner `try`/`except: pass`
folded in: `none` when the index or the conversion raises. -/
def avgMassField (value : String) : Option String :=
  (firstToken value).bind (fun tok => (pyFloatInt tok).map (fun n => toString n))

/-- One iteration of the loop `for row in soup.select("table tr")` loop: rows with
fewer than two cells are ignored, otherwise the lowercased first cell selects
the field updated with the second cell (`elif` chain, `smiles` first). -/
def processRow (f : Fields) (cells : List String) : Fields :=
  match cells with
  | key :: value :: _ =>
    let k := lowerStr key
    if containsSub k "smiles" then
      { f with smiles := value }
    else if containsSub k "systematic name" then
      { f with systematic_name := value }
    else if containsSub k "average mass" then
      match avgMassField value with
      | some v => { f with avg_mass := v }
      | none => f
    else f
  | _ => f

/-- The whole row scan, starting from `smiles, systematic_name, avg_mass = "", "", ""`. -/
def extractFields (rows : DetailPage) : Fields :=
  rows.foldl processRow ⟨"", "", ""⟩

/-- The record dictionary built by `fetch_entry` (field order of the source). -/
structure EntryRecord where
  flavonoid_id : String
  systematic_name : String
  smiles : String
  average_mass : String
deriving DecidableEq

/-- Function `fetch_entry fid`: fetch `BASE_URL + "/wiki/" + fid`, scan the rows, and
return a record when `smiles or systematic_name` is truthy; otherwise — and
when the fetch raised — append `fid` to the shared `skipped_entries` list and
return `None`.  The `try`/`except` means no exception escapes: the function
is total. -/
def fetch_entry (net : String → Except Unit DetailPage) (fid : String)
    (skipped : List String) : Option EntryRecord × List String :=
  match net (BASE_URL ++ "/wiki/" ++ fid) with
  | Except.error _ => (none, skipped ++ [fid])
  | Except.ok rows =>
    let f := extractFields rows
    if f.smiles ≠ "" ∨ f.systematic_name ≠ "" then
      (some ⟨fid, f.systematic_name, f.smiles, f.avg_mass⟩, skipped)
    else
      (none, skipped ++ [fid])

/-- Does a row (with at least two cells) take the `"smiles"` branch? -/
def rowSetsSmiles (cells : List String) : Bool :=
  match cells with
  | key :: _ :: _ => containsSub (lowerStr key) "smiles"
  | _ => false

/-- Does a row take the `"systematic name"` branch? -/
def rowSetsName (cells : List String) : Bool :=
  match cells with
  | key :: _ :: _ =>
    !containsSub (lowerStr key) "smiles" && containsSub (lowerStr key) "systematic name"
  | _ => false

/-- The second cell of a row (the captured value). -/
def rowValue (cells : List String) : String :=
  match cells with
  | _ :: value :: _ => value
  | _ => ""

/-! Section: CSV codec (model of `pandas` `to_csv` / `read_csv`)

`to_csv(index=False)` writes one header row and one row per record, comma
separated, `\n` terminated, quoting a cell only when it contains a comma, a
quote character or a line break, and doubling quote characters inside quoted
cells.  `read_csv` parses that representation back; the model recovers each
cell as the written character string. -/

/-- Does a cell need quoting? -/
def needsQuote (s : List Char) : Bool :=
  s.any (fun c => c == ',' || c == '"' || c == '\n' || c == '\r')

/-- Double every quote character. -/
def escapeQuotes : List Char → List Char
  | [] => []
  | c :: rest => if c == '"' then '"' :: '"' :: escapeQuotes rest else c :: escapeQuotes rest

/-- Encode one cell with minimal quoting. -/
def encodeField (s : List Char) : List Char :=
  if needsQuote s then '"' :: (escapeQuotes s ++ ['"']) else s

/-- Encode one row, comma separated. -/
def encodeRow : List (List Char) → List Char
  | [] => []
  | [f] => encodeField f
  | f :: g :: rest => encodeField f ++ ',' :: encodeRow (g :: rest)

/-- Encode a table, each row terminated by a newline. -/
def encodeTable : List (List (List Char)) → List Char
  | [] => []
  | row :: rest => encodeRow row ++ '\n' :: encodeTable rest

/-- How a decoded cell ended: at a comma, at a row break, or at end of input. -/
inductive FieldEnd where
  | comma
  | newline
  | eof
deriving DecidableEq

/-- Decode an unquoted cell: up to the next comma or newline. -/
def decodePlain : List Char → List Char × FieldEnd × List Char
  | [] => ([], FieldEnd.eof, [])
  | c :: rest =>
    if c == ',' then ([], FieldEnd.comma, rest)
    else if c == '\n' then ([], FieldEnd.newline, rest)
    else
      let p := decodePlain rest
      (c :: p.1, p.2.1, p.2.2)

/-- Decode the body of a quoted cell (the opening quote already consumed):
a doubled quote is a literal quote, a single quote closes the cell. -/
def decodeQuoted : List Char → List Char × FieldEnd × List Char
  | [] => ([], FieldEnd.eof, [])
  | c :: rest =>
    if c == '"' then
      match rest with
      | ',' :: rest2 => ([], FieldEnd.comma, rest2)
      | '\n' :: rest2 => ([], FieldEnd.newline, rest2)
      | [] => ([], FieldEnd.eof, [])
      | c2 :: rest2 =>
        if c2 == '"' then
          let p := decodeQuoted rest2
          ('"' :: p.1, p.2.1, p.2.2)
        else
          decodePlain rest
    else
      let p := decodeQuoted rest
      (c :: p.1, p.2.1, p.2.2)

/-- Decode one cell: quoted when it starts with a quote. -/
def decodeField : List Char → List Char × FieldEnd × List Char
  | [] => ([], FieldEnd.eof, [])
  | c :: rest => if c == '"' then decodeQuoted rest else decodePlain (c :: rest)

/-- Decode one row (fuelled; fuel bounds the number of cells). -/
def decodeRowF : Nat → List Char → List (List Char) × Bool × List Char
  | 0, cs => ([], false, cs)
  | fuel + 1, cs =>
    let p := decodeField cs
    match p.2.1 with
    | FieldEnd.comma =>
      let q := decodeRowF fuel p.2.2
      (p.1 :: q.1, q.2.1, q.2.2)
    | FieldEnd.newline => ([p.1], true, p.2.2)
    | FieldEnd.eof => ([p.1], false, p.2.2)

/-- Decode one row; a row has at most as many cells as characters plus one. -/
def decodeRow (cs : List Char) : List (List Char) × Bool × List Char :=
  decodeRowF (cs.length + 1) cs

/-- Decode a table (fuelled; fuel bounds the number of rows). -/
def decodeTableF : Nat → List Char → List (List (List Char))
  | 0, _ => []
  | fuel + 1, cs =>
    match cs with
    | [] => []
    | _ :: _ =>
      let p := decodeRow cs
      p.1 :: decodeTableF fuel p.2.2

/-- Decode a table; a table has at most as many rows as characters plus one. -/
def decodeTable (cs : List Char) : List (List (List Char)) :=
  decodeTableF (cs.length + 1) cs

/-! Section: checkpoint store (`save_checkpoint` lines 72-79, `load_completed_batches`
lines 81-91, checkpoint reload lines 120-121)

The checkpoint directory is an association list from batch number to file
content; a later entry for the same number is shadowed by the earlier one,
matching "latest write wins" on the filesystem.  `load_completed_batches`
parses batch numbers out of the file names; the model keys files by batch
number directly, so it returns the stored keys. -/

abbrev Store := List (Nat × List Char)

/-- The CSV header written by `DataFrame.to_csv` for these records. -/
def headerRow : List (List Char) :=
  ["Flavonoid_ID".data, "Systematic_Name".data, "SMILES".data, "Average_Mass".data]

/-- One CSV row per record, in the column order of the record dictionary. -/
def recordRow (e : EntryRecord) : List (List Char) :=
  [e.flavonoid_id.data, e.systematic_name.data, e.smiles.data, e.average_mass.data]

/-- The content of a checkpoint file for a list of records. -/
def checkpointCsv (data : List EntryRecord) : List Char :=
  encodeTable (headerRow :: data.map recordRow)

/-- Function `save_checkpoint(batch_id, data)`: per `if not data: return`, else write the
records as CSV to the per-batch file. -/
def save_checkpoint (store : Store) (batch_id : Nat) (data : List EntryRecord) : Store :=
  if data.isEmpty then store else (batch_id, checkpointCsv data) :: store

/-- Look up the checkpoint file of a batch. -/
def storeLookup (store : Store) (batch_id : Nat) : Option (List Char) :=
  (store.find? (fun p => p.1 == batch_id)).map (fun p => p.2)

/-- Function `load_completed_batches()`: the batch numbers that have a checkpoint file. -/
def load_completed_batches (store : Store) : List Nat :=
  store.map (fun p => p.1)

/-- Text layer of the reload: one row of parsed CSV cells, by column
position.  This recovers the written cell text only; `pd.read_csv`'s value
conversion (NA tokens, numeric dtype inference) is applied on top of it by
`pd_read_records` below.  A malformed row (not four cells) yields an empty
record; the decoder never produces one on files written by
`save_checkpoint`. -/
def rowToRecord (row : List (List Char)) : EntryRecord :=
  match row with
  | [a, b, c, d] => ⟨a.asString, b.asString, c.asString, d.asString⟩
  | _ => ⟨"", "", "", ""⟩

/-- Reload of a checkpoint file at cell-text granularity: the batch loop's
control flow (which batches are reloaded instead of fetched, and in which
order their rows are appended) depends only on this layer.  The
value-faithful reload, including `pd.read_csv`'s NA and dtype conversion of
each cell, is `pd_read_checkpoint` below. -/
def load_checkpoint (file : List Char) : List EntryRecord :=
  match decodeTable file with
  | [] => []
  | _header :: rows => rows.map rowToRecord

/-! Section: pandas value conversion on reload

`pd.read_csv` with default settings does not hand back the written cell
text: a cell equal to one of the default NA tokens (the empty cell included)
becomes `NaN`, a column whose non-NA cells are all integer literals becomes
an `int64` column (`float64` when the column also has NA cells), and a
column whose non-NA cells are all numeric literals becomes `float64`; only
otherwise do cells stay strings.  `to_dict("records")` then yields those
converted values.  The model below reproduces this per-column conversion;
float values are carried as rationals.  Outside the model's scope: bool
column inference, int64 overflow fallback and non-decimal float spellings
such as `inf` — none of which the proofs below rely on. -/

/-- A value of a reloaded cell after `pd.read_csv` conversion. -/
inductive PdValue where
  | str (s : String)
  | int (n : Int)
  | float (q : ℚ)
  | na
deriving DecidableEq

/-- Inferred dtype of one column. -/
inductive PdKind where
  | int
  | float
  | obj
deriving DecidableEq

/-- Default NA tokens of `pd.read_csv` (its `na_values` default). -/
def pdNaTokens : List String :=
  ["", "#N/A", "#N/A N/A", "#NA", "-1.#IND", "-1.#QNAN", "-NaN", "-nan",
   "1.#IND", "1.#QNAN", "<NA>", "N/A", "NA", "NULL", "NaN", "None",
   "n/a", "nan", "null"]

/-- Is a cell read as NA? -/
def isNaCell (s : String) : Bool :=
  pdNaTokens.contains s

/-- Parse a run of digits (at least one, nothing else) into a number. -/
def parseDigits : List Char → Nat → Bool → Option Nat
  | [], n, seen => if seen then some n else none
  | c :: rest, n, _ =>
    if c.isDigit then parseDigits rest (10 * n + (c.toNat - 48)) true else none

/-- Parse an optionally signed run of digits. -/
def parseSignedDigits : List Char → Option Int
  | '+' :: rest => (parseDigits rest 0 false).map (fun n => (n : Int))
  | '-' :: rest => (parseDigits rest 0 false).map (fun n => -(n : Int))
  | cs => (parseDigits cs 0 false).map (fun n => (n : Int))

/-- Integer literal, as accepted for `int64` column inference. -/
def parseIntLit (s : String) : Option Int :=
  parseSignedDigits s.data

/-- Parse an unsigned decimal mantissa (digits, at most one point, at least
one digit); stops at an `e`/`E` exponent marker and returns the exponent
characters when one is present. -/
def parseMantExp : List Char → Bool → Nat → Nat → Bool → Option ((Nat × Nat) × Option (List Char))
  | [], _, m, k, seen => if seen then some ((m, k), none) else none
  | c :: rest, seenDot, m, k, seen =>
    if c.isDigit then
      parseMantExp rest seenDot (10 * m + (c.toNat - 48)) (if seenDot then k + 1 else k) true
    else if c == '.' && !seenDot then
      parseMantExp rest true m k seen
    else if (c == 'e' || c == 'E') && seen then
      some ((m, k), some rest)
    else
      none

/-- Magnitude of a float literal, mantissa and optional exponent. -/
def parseFloatMag (cs : List Char) : Option ℚ :=
  match parseMantExp cs false 0 0 false with
  | none => none
  | some ((m, k), none) => some ((m : ℚ) / (10 : ℚ) ^ k)
  | some ((m, k), some ecs) =>
    match parseSignedDigits ecs with
    | none => none
    | some e => some (((m : ℚ) / (10 : ℚ) ^ k) * (10 : ℚ) ^ e)

/-- Float literal, as accepted for `float64` column inference. -/
def parseFloatLit (s : String) : Option ℚ :=
  match s.data with
  | '+' :: rest => parseFloatMag rest
  | '-' :: rest => (parseFloatMag rest).map (fun q => -q)
  | cs => parseFloatMag cs

/-- Dtype inference for one column: all-integer non-NA cells give `int64`
(`float64` when NA cells are present), otherwise all-numeric non-NA cells
give `float64`, otherwise the column stays object. -/
def pdColumnKind (cells : List String) : PdKind :=
  let nonNa := cells.filter (fun c => !isNaCell c)
  if nonNa.all (fun c => (parseIntLit c).isSome) && !cells.any isNaCell then
    PdKind.int
  else if nonNa.all (fun c => (parseIntLit c).isSome) ||
      nonNa.all (fun c => (parseFloatLit c).isSome) then
    PdKind.float
  else
    PdKind.obj

/-- Value of one reloaded cell given its column's inferred dtype. -/
def pdCell (kind : PdKind) (c : String) : PdValue :=
  if isNaCell c then PdValue.na
  else
    match kind with
    | PdKind.int =>
      match parseIntLit c with
      | some n => PdValue.int n
      | none => PdValue.na
    | PdKind.float =>
      match parseFloatLit c with
      | some q => PdValue.float q
      | none => PdValue.na
    | PdKind.obj => PdValue.str c

/-- A record as `pd.read_csv(...).to_dict("records")` returns it: one
converted value per column. -/
structure PdRecord where
  flavonoid_id : PdValue
  systematic_name : PdValue
  smiles : PdValue
  average_mass : PdValue
deriving DecidableEq

/-- A record whose every field is the unconverted written string — what
"reloaded equal to the original field-for-field" means for a reload. -/
def pdStr (e : EntryRecord) : PdRecord :=
  ⟨PdValue.str e.flavonoid_id, PdValue.str e.systematic_name,
   PdValue.str e.smiles, PdValue.str e.average_mass⟩

/-- The pandas conversion applied directly to a list of records: each of the
four columns gets its dtype from its own cells, then every cell is
converted. -/
def pd_read_records (recs : List EntryRecord) : List PdRecord :=
  let k1 := pdColumnKind (recs.map (fun e => e.flavonoid_id))
  let k2 := pdColumnKind (recs.map (fun e => e.systematic_name))
  let k3 := pdColumnKind (recs.map (fun e => e.smiles))
  let k4 := pdColumnKind (recs.map (fun e => e.average_mass))
  recs.map (fun e =>
    ⟨pdCell k1 e.flavonoid_id, pdCell k2 e.systematic_name,
     pdCell k3 e.smiles, pdCell k4 e.average_mass⟩)

/-- Value-faithful model of `pd.read_csv(path).to_dict("records")` on a
checkpoint file: parse the CSV text, drop the header row, and run the
per-column NA and dtype conversion on the cell text. -/
def pd_read_checkpoint (file : List Char) : List PdRecord :=
  match decodeTable file with
  | [] => []
  | _header :: rows => pd_read_records (rows.map rowToRecord)

/-! Section: batch scheduler (`main` lines 110-137) -/

/-- The `all_ids[i:i+500]` slicing of the batch loop, as the list of batches
(fuelled by the list length; each step consumes at least one element). -/
def chunkFuel : Nat → List String → List (List String)
  | 0, _ => []
  | fuel + 1, l =>
    match l with
    | [] => []
    | _ :: _ => l.take 500 :: chunkFuel fuel (l.drop 500)

/-- The batch slices of the identifier list, in order. -/
def chunkList (l : List String) : List (List String) :=
  chunkFuel l.length l

/-- Dispatch `fetch_entry` over one batch and collect the non-`None` results
(`batch_data`) while the shared skipped list grows.  The worker pool is
modelled by submission order: which identifiers are fetched and how each is
classified do not depend on completion order. -/
def fetchBatch (net : String → Except Unit DetailPage) :
    List String → List String → List EntryRecord × List String
  | [], skipped => ([], skipped)
  | fid :: rest, skipped =>
    let r := fetch_entry net fid skipped
    let q := fetchBatch net rest r.2
    match r.1 with
    | some rec => (rec :: q.1, q.2)
    | none => q

/-- What happened to one batch during a run: `fetchedIds = none` means the
batch was reloaded from its checkpoint, `some ids` means those identifiers
were fetched; `records` is what the batch appended to `all_data`. -/
structure BatchStep where
  num : Nat
  fetchedIds : Option (List String)
  records : List EntryRecord
deriving DecidableEq

/-- The observable outcome of the batch loop. -/
structure RunOut where
  all_data : List EntryRecord
  skipped : List String
  store : Store
  trace : List BatchStep
deriving DecidableEq

/-- The source loop `for i in range(0, len(all_ids), batch_size)`: for each batch in
increasing number order, either reload it from its checkpoint (when its
number is in `completed_batches`) or fetch it, save the checkpoint, and
append to `all_data`. -/
def runChunks (net : String → Except Unit DetailPage) :
    List (List String) → Nat → List Nat → Store → List String → RunOut
  | [], _, _, store, skipped => ⟨[], skipped, store, []⟩
  | bids :: rest, b, completed, store, skipped =>
    if b ∈ completed then
      let recs := load_checkpoint ((storeLookup store b).getD [])
      let out := runChunks net rest (b + 1) completed store skipped
      ⟨recs ++ out.all_data, out.skipped, out.store, ⟨b, none, recs⟩ :: out.trace⟩
    else
      let p := fetchBatch net bids skipped
      let store2 := save_checkpoint store b p.1
      let out := runChunks net rest (b + 1) completed store2 p.2
      ⟨p.1 ++ out.all_data, out.skipped, out.store, ⟨b, some bids, p.1⟩ :: out.trace⟩

/-- The whole batch phase of `main`: completed batches are read off the
checkpoint directory once, before the loop. -/
def run_batches (net : String → Except Unit DetailPage) (store : Store)
    (all_ids : List String) : RunOut :=
  runChunks net (chunkList all_ids) 1 (load_completed_batches store) store []

/-- Concatenation of the per-batch contributions, in trace order. -/
def traceRecords (tr : List BatchStep) : List EntryRecord :=
  tr.foldr (fun s acc => s.records ++ acc) []

/-! Section: listing pagination (`get_listing_pages`, lines 15-25)

The network oracle maps a listing URL to the optional href of its "next 500"
link; `Except.error ()` is a `requests.get` fault, which the source does not
catch. -/

/-- The `while True` loop: fetch `urls[-1]`; on a network fault the exception
propagates (`Except.error`); append `BASE_URL + href` while a next link
exists.  `none` = fuel exhausted (a run of the source that never returns). -/
def pagesLoop (net : String → Except Unit (Option String)) :
    Nat → List String → Option (Except Unit (List String))
  | 0, _ => none
  | fuel + 1, urls =>
    match urls.getLast? with
    | none => some (Except.ok urls)
    | some u =>
      match net u with
      | Except.error e => some (Except.error e)
      | Except.ok none => some (Except.ok urls)
      | Except.ok (some href) => pagesLoop net fuel (urls ++ [BASE_URL ++ href])

/-- Function `get_listing_pages()`: start from `urls = [LISTING_URL]`. -/
def get_listing_pages (net : String → Except Unit (Option String)) (fuel : Nat) :
    Option (Except Unit (List String)) :=
  pagesLoop net fuel [LISTING_URL]

/-! Section: final artifacts (`main` lines 96-145) -/

/-- Artifact `flavonoids_final.csv`: the merged table of all records. -/
def finalCsv (all_data : List EntryRecord) : List Char :=
  encodeTable (headerRow :: all_data.map recordRow)

/-- Artifact `skipped_entries.csv`: one `Skipped_IDs` column. -/
def skippedCsv (skipped : List String) : List Char :=
  encodeTable (["Skipped_IDs".data] :: skipped.map (fun s => [s.data]))

/-- The whole run of `main`: pagination, identifier extraction over every
listing page (`all_ids.extend` in page order), the batch loop, then the final
writes — the merged CSV unconditionally and the skipped CSV only when
`skipped_entries` is non-empty.  `netA` maps a listing URL to its anchor
texts.  The result lists the files written at run end in write order;
`none` = non-terminating pagination, `Except.error` = a pagination fault
aborted the run before any write. -/
def main_run (netL : String → Except Unit (Option String)) (netA : String → List String)
    (netF : String → Except Unit DetailPage) (fuel : Nat) (store : Store) :
    Option (Except Unit (RunOut × List (String × List Char))) :=
  match get_listing_pages netL fuel with
  | none => none
  | some (Except.error e) => some (Except.error e)
  | some (Except.ok pages) =>
    let all_ids := pages.foldl (fun acc p => acc ++ extract_ids (netA p)) []
    let out := run_batches netF store all_ids
    let files :=
      [("flavonoids_final.csv", finalCsv out.all_data)] ++
        (if out.skipped.isEmpty then [] else [("skipped_entries.csv", skippedCsv out.skipped)])
    some (Except.ok (out, files))


/-! Section: helper lemmas -/

/-- The accumulating loop of `extract_ids` is append-filter-map. -/
theorem extract_ids_foldl_acc (anchors : List String) (acc : List String) :
    anchors.foldl
      (fun ids a =>
        let fid := stripStr a
        if fid.length == 12 && startsWithStr fid "FL" then ids ++ [fid] else ids)
      acc =
    acc ++ (anchors.map stripStr).filter
      (fun fid => fid.length == 12 && startsWithStr fid "FL") := by
  induction anchors generalizing acc with
  | nil => simp
  | cons a t ih =>
    simp only [List.foldl_cons, List.map_cons, List.filter_cons]
    by_cases h : ((stripStr a).length == 12 && startsWithStr (stripStr a) "FL") = true
    · rw [if_pos h, if_pos h, ih, List.append_assoc, List.singleton_append]
    · rw [if_neg h, if_neg h, ih]

/-- The `smiles` component after one row. -/
theorem processRow_smiles (f : Fields) (cells : List String) :
    (processRow f cells).smiles = if rowSetsSmiles cells then rowValue cells else f.smiles := by
  match cells with
  | [] => simp [processRow, rowSetsSmiles]
  | [k] => simp [processRow, rowSetsSmiles]
  | k :: v :: rest =>
    by_cases h1 : containsSub (lowerStr k) "smiles"
    · simp [processRow, rowSetsSmiles, rowValue, h1]
    · by_cases h2 : containsSub (lowerStr k) "systematic name"
      · simp [processRow, rowSetsSmiles, rowValue, h1, h2]
      · by_cases h3 : containsSub (lowerStr k) "average mass"
        · simp only [processRow, rowSetsSmiles, rowValue, h1, h2, h3]
          cases avgMassField v <;> simp [h1]
        · simp [processRow, rowSetsSmiles, rowValue, h1, h2, h3]

/-- The `systematic_name` component after one row. -/
theorem processRow_name (f : Fields) (cells : List String) :
    (processRow f cells).systematic_name =
      if rowSetsName cells then rowValue cells else f.systematic_name := by
  match cells with
  | [] => simp [processRow, rowSetsName]
  | [k] => simp [processRow, rowSetsName]
  | k :: v :: rest =>
    by_cases h1 : containsSub (lowerStr k) "smiles"
    · simp [processRow, rowSetsName, rowValue, h1]
    · by_cases h2 : containsSub (lowerStr k) "systematic name"
      · simp [processRow, rowSetsName, rowValue, h1, h2]
      · by_cases h3 : containsSub (lowerStr k) "average mass"
        · simp only [processRow, rowSetsName, rowValue, h1, h2, h3]
          cases avgMassField v <;> simp [h1, h2]
        · simp [processRow, rowSetsName, rowValue, h1, h2, h3]

/-! Section: claim theorems -/

/-- C3: a token found in a listing page's list-item anchors is accepted by
`extract_ids` iff it has length exactly 12 and starts with `"FL"`; accepted
identifiers are returned in encounter order with no deduplication (the result
is literally the filtered stripped anchor list). -/
theorem extract_ids_accepts_iff (anchors : List String) :
    extract_ids anchors =
      (anchors.map stripStr).filter
        (fun fid => fid.length == 12 && startsWithStr fid "FL") ∧
    ∀ fid : String, fid ∈ extract_ids anchors ↔
      ∃ a ∈ anchors, stripStr a = fid ∧ fid.length = 12 ∧ startsWithStr fid "FL" = true := by
  have heq : extract_ids anchors =
      (anchors.map stripStr).filter
        (fun fid => fid.length == 12 && startsWithStr fid "FL") := by
    unfold extract_ids
    simpa using extract_ids_foldl_acc anchors []
  refine ⟨heq, fun fid => ?_⟩
  rw [heq]
  simp only [List.mem_filter, List.mem_map, Bool.and_eq_true, beq_iff_eq]
  constructor
  · rintro ⟨⟨a, ha, rfl⟩, hlen, hfl⟩
    exact ⟨a, ha, rfl, hlen, hfl⟩
  · rintro ⟨a, ha, rfl, hlen, hfl⟩
    exact ⟨⟨a, ha, rfl⟩, hlen, hfl⟩

/-- C10: each `fetch_entry` call has exactly one of two outcomes — a record
whose identifier is the input identifier with the skipped list untouched, or
no record with the input identifier appended exactly once to the skipped
list. -/
theorem fetch_entry_exactly_one_outcome (net : String → Except Unit DetailPage)
    (fid : String) (skipped : List String) :
    match (fetch_entry net fid skipped).1 with
    | some r => r.flavonoid_id = fid ∧ (fetch_entry net fid skipped).2 = skipped
    | none => (fetch_entry net fid skipped).2 = skipped ++ [fid] := by
  unfold fetch_entry
  cases net (BASE_URL ++ "/wiki/" ++ fid) with
  | error e => simp
  | ok rows =>
    by_cases h : (extractFields rows).smiles ≠ "" ∨ (extractFields rows).systematic_name ≠ ""
    · simp [h]
    · simp [h]

/-- C4: `fetch_entry` returns a record iff the fetch succeeded and the
extracted SMILES or systematic-name field is non-empty; in every other case
(including a fetch fault) the identifier is appended to the skipped list and
no exception escapes (the function is total); when a record is returned the
skipped list is untouched. -/
theorem fetch_entry_record_iff (net : String → Except Unit DetailPage)
    (fid : String) (skipped : List String) :
    ((fetch_entry net fid skipped).1.isSome = true ↔
      ∃ rows, net (BASE_URL ++ "/wiki/" ++ fid) = Except.ok rows ∧
        ((extractFields rows).smiles ≠ "" ∨ (extractFields rows).systematic_name ≠ "")) ∧
    ((fetch_entry net fid skipped).1 = none →
      (fetch_entry net fid skipped).2 = skipped ++ [fid]) ∧
    (∀ r, (fetch_entry net fid skipped).1 = some r →
      (fetch_entry net fid skipped).2 = skipped) := by
  cases hnet : net (BASE_URL ++ "/wiki/" ++ fid) with
  | error e =>
    simp only [fetch_entry, hnet]
    refine ⟨?_, by simp, by simp⟩
    simp only [Option.isSome_none]
    constructor
    · intro h; simp at h
    · rintro ⟨rows, heq, -⟩
      cases heq
  | ok rows =>
    simp only [fetch_entry, hnet]
    by_cases h : (extractFields rows).smiles ≠ "" ∨ (extractFields rows).systematic_name ≠ ""
    · rw [if_pos h]
      refine ⟨?_, by simp, by simp⟩
      simp only [Option.isSome_some]
      exact ⟨fun _ => ⟨rows, rfl, h⟩, fun _ => trivial⟩
    · rw [if_neg h]
      refine ⟨?_, by simp, by simp⟩
      simp only [Option.isSome_none]
      constructor
      · intro hf; simp at hf
      · rintro ⟨rows2, heq, hcond⟩
        rw [Except.ok.injEq] at heq
        subst heq
        exact absurd hcond h

/-- C5: within a detail page scan the captured SMILES (resp. systematic name)
value is the second cell of the last row whose label matches the keyword —
the last matching row wins, there is no first-match short-circuit; in
particular two rows labelled `SMILES` yield the later value. -/
theorem last_matching_row_wins :
    (∀ (st : Fields) (rows : List (List String)),
      (rows.foldl processRow st).smiles =
        ((rows.filter rowSetsSmiles).map rowValue).getLastD st.smiles ∧
      (rows.foldl processRow st).systematic_name =
        ((rows.filter rowSetsName).map rowValue).getLastD st.systematic_name) ∧
    (extractFields [["SMILES", "v1"], ["SMILES", "v2"]]).smiles = "v2" := by
  constructor
  · intro st rows
    induction rows generalizing st with
    | nil => simp
    | cons r t ih =>
      rw [List.foldl_cons]
      constructor
      · rw [(ih (processRow st r)).1, processRow_smiles, List.filter_cons]
        by_cases h : rowSetsSmiles r = true
        · rw [if_pos h, if_pos h, List.map_cons, List.getLastD_cons]
        · rw [if_neg h, if_neg h]
      · rw [(ih (processRow st r)).2, processRow_name, List.filter_cons]
        by_cases h : rowSetsName r = true
        · rw [if_pos h, if_pos h, List.map_cons, List.getLastD_cons]
        · rw [if_neg h, if_neg h]
  · decide

/-- C6 counterexample: on a page whose first `Average Mass` row parses to
`"100"` and whose second `Average Mass` row fails to parse, the failed parse
leaves the previously captured value in place — the field is `"100"`, not
empty, refuting "on parse failure the field is left empty" as a universal
statement. -/
theorem avg_mass_parse_fail_keeps_value :
    (extractFields [["Average Mass", "100 g/mol"], ["Average Mass", "not a number"]]).avg_mass
      = "100" ∧
    ¬ (extractFields [["Average Mass", "100 g/mol"], ["Average Mass", "not a number"]]).avg_mass
      = "" := by
  decide

/-- C6 (amended): for a row whose label contains `"average mass"` (and takes
neither earlier `elif` branch), the value's first whitespace-delimited token
is parsed as a decimal number, truncated toward zero and stored as a string;
on parse failure the row leaves the field unchanged (hence empty unless an
earlier matching row set it) and raises no error; `"268.2 g/mol"` yields
`"268"`. -/
theorem avg_mass_parse_behavior :
    (∀ (f : Fields) (key value : String) (rest : List String),
      containsSub (lowerStr key) "smiles" = false →
      containsSub (lowerStr key) "systematic name" = false →
      containsSub (lowerStr key) "average mass" = true →
      processRow f (key :: value :: rest) =
        (match avgMassField value with
         | some v => { f with avg_mass := v }
         | none => f)) ∧
    avgMassField "268.2 g/mol" = some "268" ∧
    avgMassField "not a number" = none := by
  refine ⟨?_, by decide, by decide⟩
  intro f key value rest h1 h2 h3
  simp [processRow, h1, h2, h3]

/-- Witness for C6: the amended row behaviour at the spec's concrete cell. -/
theorem avg_mass_parse_behavior_instance :
    processRow ⟨"", "", ""⟩ ("Average Mass" :: "268.2 g/mol" :: []) =
      (match avgMassField "268.2 g/mol" with
       | some v => { Fields.mk "" "" "" with avg_mass := v }
       | none => Fields.mk "" "" "") :=
  avg_mass_parse_behavior.1 ⟨"", "", ""⟩ "Average Mass" "268.2 g/mol" []
    (by decide) (by decide) (by decide)

/-- Witness for C4: a successful fetch with a non-empty SMILES row yields a
record. -/
theorem fetch_entry_record_iff_instance :
    (fetch_entry (fun _ => Except.ok [["SMILES", "C1"]]) "FL0000000001" []).1.isSome = true :=
  (fetch_entry_record_iff (fun _ => Except.ok [["SMILES", "C1"]]) "FL0000000001" []).1.mpr
    ⟨[["SMILES", "C1"]], rfl, Or.inl (by decide)⟩

/-- Decomposition of `needsQuote` over a cons cell. -/
theorem needsQuote_cons (c : Char) (cs : List Char) (h : needsQuote (c :: cs) = false) :
    (c == ',') = false ∧ (c == '"') = false ∧ (c == '\n') = false ∧ needsQuote cs = false := by
  unfold needsQuote at h ⊢
  rw [List.any_cons, Bool.or_eq_false_iff] at h
  rcases h with ⟨h1, h2⟩
  rw [Bool.or_eq_false_iff, Bool.or_eq_false_iff, Bool.or_eq_false_iff] at h1
  exact ⟨h1.1.1.1, h1.1.1.2, h1.1.2, h2⟩

/-- An unquoted encoded cell decodes up to the following comma. -/
theorem decodePlain_append_comma (s r : List Char) (h : needsQuote s = false) :
    decodePlain (s ++ ',' :: r) = (s, FieldEnd.comma, r) := by
  induction s with
  | nil => simp [decodePlain]
  | cons c cs ih =>
    obtain ⟨h1, h2, h3, h4⟩ := needsQuote_cons c cs h
    rw [List.cons_append]
    simp [decodePlain, h1, h3, ih h4]

/-- An unquoted encoded cell decodes up to the following newline. -/
theorem decodePlain_append_newline (s r : List Char) (h : needsQuote s = false) :
    decodePlain (s ++ '\n' :: r) = (s, FieldEnd.newline, r) := by
  induction s with
  | nil => simp [decodePlain]
  | cons c cs ih =>
    obtain ⟨h1, h2, h3, h4⟩ := needsQuote_cons c cs h
    rw [List.cons_append]
    simp [decodePlain, h1, h3, ih h4]

/-- A quoted encoded cell body decodes up to the closing quote and comma. -/
theorem decodeQuoted_append_comma (s r : List Char) :
    decodeQuoted (escapeQuotes s ++ '"' :: ',' :: r) = (s, FieldEnd.comma, r) := by
  induction s with
  | nil => simp [escapeQuotes, decodeQuoted]
  | cons c cs ih =>
    by_cases h : (c == '"') = true
    · have hc : c = '"' := by simpa using h
      subst hc
      simp only [escapeQuotes, if_pos rfl, List.cons_append]
      rw [decodeQuoted.eq_def]
      simp [ih]
    · simp only [escapeQuotes, if_neg h, List.cons_append]
      rw [decodeQuoted.eq_def]
      simp [h, ih]

/-- A quoted encoded cell body decodes up to the closing quote and newline. -/
theorem decodeQuoted_append_newline (s r : List Char) :
    decodeQuoted (escapeQuotes s ++ '"' :: '\n' :: r) = (s, FieldEnd.newline, r) := by
  induction s with
  | nil => simp [escapeQuotes, decodeQuoted]
  | cons c cs ih =>
    by_cases h : (c == '"') = true
    · have hc : c = '"' := by simpa using h
      subst hc
      simp only [escapeQuotes, if_pos rfl, List.cons_append]
      rw [decodeQuoted.eq_def]
      simp [ih]
    · simp only [escapeQuotes, if_neg h, List.cons_append]
      rw [decodeQuoted.eq_def]
      simp [h, ih]

/-- An encoded cell decodes up to the following comma. -/
theorem decodeField_append_comma (s r : List Char) :
    decodeField (encodeField s ++ ',' :: r) = (s, FieldEnd.comma, r) := by
  unfold encodeField
  by_cases h : needsQuote s = true
  · rw [if_pos h, List.cons_append, List.append_assoc, List.singleton_append]
    simp [decodeField, decodeQuoted_append_comma]
  · have h2 : needsQuote s = false := eq_false_of_ne_true h
    rw [if_neg h]
    cases s with
    | nil => simp [decodeField, decodePlain]
    | cons c cs =>
      obtain ⟨g1, g2, g3, g4⟩ := needsQuote_cons c cs h2
      rw [List.cons_append]
      simp only [decodeField, g2, Bool.false_eq_true, if_false]
      rw [← List.cons_append]
      exact decodePlain_append_comma (c :: cs) r h2

/-- An encoded cell decodes up to the following newline. -/
theorem decodeField_append_newline (s r : List Char) :
    decodeField (encodeField s ++ '\n' :: r) = (s, FieldEnd.newline, r) := by
  unfold encodeField
  by_cases h : needsQuote s = true
  · rw [if_pos h, List.cons_append, List.append_assoc, List.singleton_append]
    simp [decodeField, decodeQuoted_append_newline]
  · have h2 : needsQuote s = false := eq_false_of_ne_true h
    rw [if_neg h]
    cases s with
    | nil => simp [decodeField, decodePlain]
    | cons c cs =>
      obtain ⟨g1, g2, g3, g4⟩ := needsQuote_cons c cs h2
      rw [List.cons_append]
      simp only [decodeField, g2, Bool.false_eq_true, if_false]
      rw [← List.cons_append]
      exact decodePlain_append_newline (c :: cs) r h2

/-- An encoded row decodes back to its cells, given enough fuel. -/
theorem decodeRowF_encode (fs : List (List Char)) (fuel : Nat) (r : List Char)
    (hne : fs ≠ []) (hfuel : fs.length ≤ fuel) :
    decodeRowF fuel (encodeRow fs ++ '\n' :: r) = (fs, true, r) := by
  induction fs generalizing fuel with
  | nil => exact absurd rfl hne
  | cons f gs ih =>
    cases gs with
    | nil =>
      cases fuel with
      | zero => simp at hfuel
      | succ m =>
        simp only [encodeRow]
        simp [decodeRowF, decodeField_append_newline]
    | cons g t =>
      cases fuel with
      | zero => simp at hfuel
      | succ m =>
        simp only [encodeRow, List.append_assoc, List.cons_append]
        have step := decodeField_append_comma f (encodeRow (g :: t) ++ '\n' :: r)
        simp only [decodeRowF, step]
        have hf2 : (g :: t).length ≤ m := by
          simp only [List.length_cons] at hfuel ⊢
          omega
        have tail := ih m (by simp) hf2
        simp [tail]

/-- A row encoding is at least as long as its cell count minus one. -/
theorem encodeRow_length (fs : List (List Char)) (hne : fs ≠ []) :
    fs.length ≤ (encodeRow fs).length + 1 := by
  induction fs with
  | nil => exact absurd rfl hne
  | cons f gs ih =>
    cases gs with
    | nil => simp [encodeRow]
    | cons g t =>
      have h2 := ih (by simp)
      simp only [List.length_cons] at h2 ⊢
      simp only [encodeRow, List.length_append, List.length_cons]
      omega

/-- An encoded row decodes back to its cells. -/
theorem decodeRow_encode (fs : List (List Char)) (r : List Char) (hne : fs ≠ []) :
    decodeRow (encodeRow fs ++ '\n' :: r) = (fs, true, r) := by
  unfold decodeRow
  apply decodeRowF_encode fs _ r hne
  have h1 := encodeRow_length fs hne
  simp only [List.length_append, List.length_cons]
  omega

/-- A table encoding is at least as long as its row count. -/
theorem encodeTable_length (rows : List (List (List Char))) :
    rows.length ≤ (encodeTable rows).length := by
  induction rows with
  | nil => simp [encodeTable]
  | cons row rest ih =>
    simp only [encodeTable, List.length_append, List.length_cons]
    omega

/-- An encoded table decodes back to its rows, given enough fuel. -/
theorem decodeTableF_encode (rows : List (List (List Char))) (fuel : Nat)
    (hrows : ∀ row ∈ rows, row ≠ []) (hfuel : rows.length ≤ fuel) :
    decodeTableF fuel (encodeTable rows) = rows := by
  induction rows generalizing fuel with
  | nil =>
    cases fuel with
    | zero => simp [decodeTableF]
    | succ m => simp [decodeTableF, encodeTable]
  | cons row rest ih =>
    cases fuel with
    | zero => simp at hfuel
    | succ m =>
      have hrow : row ≠ [] := hrows row (List.mem_cons_self row rest)
      have hcs : encodeTable (row :: rest) = encodeRow row ++ '\n' :: encodeTable rest := rfl
      have hrowdec := decodeRow_encode row (encodeTable rest) hrow
      cases henc : encodeRow row with
      | nil =>
        rw [hcs, henc]
        rw [henc] at hrowdec
        simp only [List.nil_append] at hrowdec ⊢
        simp only [decodeTableF, hrowdec]
        rw [ih m (fun x hx => hrows x (List.mem_cons_of_mem row hx))
          (by simp only [List.length_cons] at hfuel; omega)]
      | cons c cs =>
        rw [hcs, henc]
        rw [henc] at hrowdec
        simp only [List.cons_append] at hrowdec ⊢
        simp only [decodeTableF, hrowdec]
        rw [ih m (fun x hx => hrows x (List.mem_cons_of_mem row hx))
          (by simp only [List.length_cons] at hfuel; omega)]

/-- An encoded table decodes back to its rows (the codec round-trip). -/
theorem decodeTable_encode (rows : List (List (List Char)))
    (hrows : ∀ row ∈ rows, row ≠ []) :
    decodeTable (encodeTable rows) = rows := by
  unfold decodeTable
  exact decodeTableF_encode rows _ hrows (by have := encodeTable_length rows; omega)

/-- Turning a record into a CSV row and back is the identity. -/
theorem rowToRecord_recordRow (e : EntryRecord) : rowToRecord (recordRow e) = e := by
  obtain ⟨a, b, c, d⟩ := e
  obtain ⟨la⟩ := a
  obtain ⟨lb⟩ := b
  obtain ⟨lc⟩ := c
  obtain ⟨ld⟩ := d
  rfl

/-- Every row of a checkpoint file body is non-empty. -/
theorem checkpoint_rows_ne_nil (data : List EntryRecord) :
    ∀ row ∈ headerRow :: data.map recordRow, row ≠ [] := by
  intro row hrow
  rcases List.mem_cons.mp hrow with h | h
  · subst h; simp [headerRow]
  · obtain ⟨e, -, rfl⟩ := List.mem_map.mp h
    simp [recordRow]

/-- C2 counterexample: with the reload's value conversion modelled (an empty
cell reads as NA, an all-integer column reads as integers), saving the record
`⟨"FL0000000001", "", "C1=CC", "268"⟩` and reloading the artifact does not
give back the original strings field-for-field: the empty systematic name
reloads as NA and the mass reloads as the integer 268. -/
theorem checkpoint_reload_not_exact :
    pd_read_checkpoint (checkpointCsv [⟨"FL0000000001", "", "C1=CC", "268"⟩]) =
      [⟨PdValue.str "FL0000000001", PdValue.na, PdValue.str "C1=CC", PdValue.int 268⟩] ∧
    ¬ pd_read_checkpoint (checkpointCsv [⟨"FL0000000001", "", "C1=CC", "268"⟩]) =
        [pdStr ⟨"FL0000000001", "", "C1=CC", "268"⟩] := by
  decide

/-- C2 (amended): saving a non-empty record list with `save_checkpoint`
stores the CSV artifact under the batch number; reloading the artifact
recovers the written cell text exactly, and the reloaded values are the
original records transformed by the reader's per-column NA and numeric
conversion; they equal the originals field-for-field precisely when no
conversion applies — every column inferred as object and no cell an NA
token (an empty field or an all-integer mass column breaks this, a
well-formed identifier column never does). -/
theorem checkpoint_roundtrip_pandas (store : Store) (batch_id : Nat)
    (data : List EntryRecord) (h : data ≠ []) :
    storeLookup (save_checkpoint store batch_id data) batch_id = some (checkpointCsv data) ∧
    decodeTable (checkpointCsv data) = headerRow :: data.map recordRow ∧
    pd_read_checkpoint (checkpointCsv data) = pd_read_records data ∧
    ((pdColumnKind (data.map (fun e => e.flavonoid_id)) = PdKind.obj ∧
      pdColumnKind (data.map (fun e => e.systematic_name)) = PdKind.obj ∧
      pdColumnKind (data.map (fun e => e.smiles)) = PdKind.obj ∧
      pdColumnKind (data.map (fun e => e.average_mass)) = PdKind.obj ∧
      ∀ e ∈ data, isNaCell e.flavonoid_id = false ∧ isNaCell e.systematic_name = false ∧
        isNaCell e.smiles = false ∧ isNaCell e.average_mass = false) →
      pd_read_checkpoint (checkpointCsv data) = data.map pdStr) := by
  have htext : decodeTable (checkpointCsv data) = headerRow :: data.map recordRow := by
    unfold checkpointCsv
    exact decodeTable_encode _ (checkpoint_rows_ne_nil data)
  have hread : pd_read_checkpoint (checkpointCsv data) = pd_read_records data := by
    unfold pd_read_checkpoint
    rw [htext]
    simp only []
    rw [List.map_map]
    have hid : (rowToRecord ∘ recordRow) = id := funext rowToRecord_recordRow
    rw [hid, List.map_id]
  refine ⟨?_, htext, hread, ?_⟩
  · unfold save_checkpoint storeLookup
    rw [if_neg (by simpa using h)]
    simp [List.find?]
  · rintro ⟨hk1, hk2, hk3, hk4, hna⟩
    rw [hread]
    simp only [pd_read_records]
    rw [hk1, hk2, hk3, hk4]
    apply List.map_congr_left
    intro e he
    obtain ⟨n1, n2, n3, n4⟩ := hna e he
    simp [pdCell, pdStr, n1, n2, n3, n4]

/-- Witness for C2: a record whose four cells are object-typed non-NA text
reloads to the original strings. -/
theorem checkpoint_roundtrip_pandas_instance :
    pd_read_checkpoint (checkpointCsv [⟨"FL0000000001", "name A", "C1=CC", "mass x"⟩]) =
      [⟨"FL0000000001", "name A", "C1=CC", "mass x"⟩].map pdStr :=
  (checkpoint_roundtrip_pandas [] 2 [⟨"FL0000000001", "name A", "C1=CC", "mass x"⟩]
    (by decide)).2.2.2 (by decide)

/-- Saving under a different batch number does not change a lookup. -/
theorem storeLookup_save_of_ne (store : Store) (k : Nat) (data : List EntryRecord)
    (N : Nat) (h : k ≠ N) :
    storeLookup (save_checkpoint store k data) N = storeLookup store N := by
  unfold save_checkpoint
  by_cases hd : data.isEmpty
  · rw [if_pos hd]
  · rw [if_neg hd]
    unfold storeLookup
    have hk : (k == N) = false := beq_eq_false_iff_ne.mpr h
    simp [List.find?, hk]

/-- A successful lookup means the batch number is listed as completed. -/
theorem storeLookup_mem_keys (N : Nat) (file : List Char) :
    ∀ store : Store, storeLookup store N = some file → N ∈ load_completed_batches store := by
  intro store
  induction store with
  | nil => intro h; simp [storeLookup, List.find?] at h
  | cons p rest ih =>
    intro h
    unfold load_completed_batches
    rw [List.map_cons]
    by_cases hk : (p.1 == N) = true
    · exact (beq_iff_eq.mp hk) ▸ List.mem_cons_self _ _
    · refine List.mem_cons_of_mem _ ?_
      apply ih
      unfold storeLookup at h ⊢
      rwa [List.find?_cons_of_neg _ (by simpa using hk)] at h

/-- A failed lookup means the batch number is not listed as completed. -/
theorem storeLookup_none_keys (N : Nat) :
    ∀ store : Store, storeLookup store N = none → N ∉ load_completed_batches store := by
  intro store
  induction store with
  | nil => intro _; simp [load_completed_batches]
  | cons p rest ih =>
    intro h
    unfold load_completed_batches
    rw [List.map_cons]
    by_cases hk : (p.1 == N) = true
    · exfalso
      simp [storeLookup, List.find?, hk] at h
    · intro hmem
      rcases List.mem_cons.mp hmem with hmem | hmem
      · exact absurd (beq_iff_eq.mpr hmem.symm) (by simpa using hk)
      · refine ih ?_ hmem
        unfold storeLookup at h ⊢
        rwa [List.find?_cons_of_neg _ (by simpa using hk)] at h

/-- When every fetch of a batch faults, the batch collects nothing and every
identifier is appended to the skipped list in order. -/
theorem fetchBatch_all_fail (net : String → Except Unit DetailPage) :
    ∀ (bids sk : List String),
      (∀ fid ∈ bids, net (BASE_URL ++ "/wiki/" ++ fid) = Except.error ()) →
      fetchBatch net bids sk = ([], sk ++ bids) := by
  intro bids
  induction bids with
  | nil => intro sk _; simp [fetchBatch]
  | cons fid rest ih =>
    intro sk h
    have hf : fetch_entry net fid sk = (none, sk ++ [fid]) := by
      unfold fetch_entry
      rw [h fid (List.mem_cons_self _ _)]
    simp only [fetchBatch, hf]
    rw [ih (sk ++ [fid]) (fun x hx => h x (List.mem_cons_of_mem _ hx))]
    simp

/-- The batch loop processes batch numbers `b, b+1, ...` in strictly
increasing order: the trace numbers are exactly `range' b chunks.length`. -/
theorem runChunks_trace_nums (net : String → Except Unit DetailPage) :
    ∀ (chunks : List (List String)) (b : Nat) (comp : List Nat) (store : Store)
      (sk : List String),
      (runChunks net chunks b comp store sk).trace.map (fun s => s.num) =
        List.range' b chunks.length := by
  intro chunks
  induction chunks with
  | nil => intro b comp store sk; simp [runChunks]
  | cons bids rest ih =>
    intro b comp store sk
    simp only [runChunks, List.length_cons]
    have hr : List.range' b (rest.length + 1) = b :: List.range' (b + 1) rest.length := rfl
    rw [hr]
    by_cases hmem : b ∈ comp
    · rw [if_pos hmem]
      simp only [List.map_cons]
      rw [ih]
    · rw [if_neg hmem]
      simp only [List.map_cons]
      rw [ih]

/-- Field `all_data` is the concatenation of the per-batch contributions. -/
theorem runChunks_all_data (net : String → Except Unit DetailPage) :
    ∀ (chunks : List (List String)) (b : Nat) (comp : List Nat) (store : Store)
      (sk : List String),
      (runChunks net chunks b comp store sk).all_data =
        traceRecords (runChunks net chunks b comp store sk).trace := by
  intro chunks
  induction chunks with
  | nil => intro b comp store sk; simp [runChunks, traceRecords]
  | cons bids rest ih =>
    intro b comp store sk
    simp only [runChunks]
    by_cases hmem : b ∈ comp
    · rw [if_pos hmem]
      simp only [traceRecords, List.foldr_cons]
      rw [ih (b + 1) comp store sk]
      rfl
    · rw [if_neg hmem]
      simp only [traceRecords, List.foldr_cons]
      rw [ih (b + 1) comp _ _]
      rfl

/-- Batch numbers below the loop counter are never written by the loop. -/
theorem runChunks_store_high (net : String → Except Unit DetailPage) (N : Nat) :
    ∀ (chunks : List (List String)) (b : Nat) (comp : List Nat) (store : Store)
      (sk : List String), N < b →
      storeLookup (runChunks net chunks b comp store sk).store N = storeLookup store N := by
  intro chunks
  induction chunks with
  | nil => intro b comp store sk _; simp [runChunks]
  | cons bids rest ih =>
    intro b comp store sk h
    simp only [runChunks]
    by_cases hmem : b ∈ comp
    · rw [if_pos hmem]
      exact ih (b + 1) comp store sk (by omega)
    · rw [if_neg hmem]
      rw [ih (b + 1) comp _ _ (by omega)]
      exact storeLookup_save_of_ne store b _ N (by omega)

/-- A batch whose number is completed is reloaded from its checkpoint file:
its trace step fetches nothing and contributes exactly the reloaded records. -/
theorem runChunks_completed_batch (net : String → Except Unit DetailPage) (N : Nat)
    (file : List Char) :
    ∀ (chunks : List (List String)) (b : Nat) (comp : List Nat) (store : Store)
      (sk : List String),
      N ∈ comp → storeLookup store N = some file → b ≤ N → N - b < chunks.length →
      ∃ step ∈ (runChunks net chunks b comp store sk).trace,
        step.num = N ∧ step.fetchedIds = none ∧ step.records = load_checkpoint file := by
  intro chunks
  induction chunks with
  | nil => intro b comp store sk _ _ _ hlt; simp at hlt
  | cons bids rest ih =>
    intro b comp store sk hcomp hfile hb hlt
    by_cases heq : N = b
    · subst heq
      simp only [runChunks]
      rw [if_pos hcomp]
      refine ⟨⟨N, none, load_checkpoint ((storeLookup store N).getD [])⟩,
        List.mem_cons_self _ _, rfl, rfl, ?_⟩
      rw [hfile]
      rfl
    · simp only [runChunks]
      by_cases hmem : b ∈ comp
      · rw [if_pos hmem]
        obtain ⟨step, hstep, hs⟩ := ih (b + 1) comp store sk hcomp hfile (by omega)
          (by simp only [List.length_cons] at hlt; omega)
        exact ⟨step, List.mem_cons_of_mem _ hstep, hs⟩
      · rw [if_neg hmem]
        have hfile2 : storeLookup (save_checkpoint store b (fetchBatch net bids sk).1) N
            = some file := by
          rw [storeLookup_save_of_ne store b _ N (by omega)]
          exact hfile
        obtain ⟨step, hstep, hs⟩ := ih (b + 1) comp _ _ hcomp hfile2 (by omega)
          (by simp only [List.length_cons] at hlt; omega)
        exact ⟨step, List.mem_cons_of_mem _ hstep, hs⟩

/-- A non-completed batch whose fetches all fault collects nothing, saves no
checkpoint, and is recorded in the trace as fetched with empty records. -/
theorem runChunks_all_fail_batch (net : String → Except Unit DetailPage) (N : Nat) :
    ∀ (chunks : List (List String)) (b : Nat) (comp : List Nat) (store : Store)
      (sk : List String),
      b ≤ N → N - b < chunks.length → N ∉ comp →
      (∀ fid ∈ chunks.getD (N - b) [], net (BASE_URL ++ "/wiki/" ++ fid) = Except.error ()) →
      storeLookup store N = none →
      storeLookup (runChunks net chunks b comp store sk).store N = none ∧
      ∃ step ∈ (runChunks net chunks b comp store sk).trace,
        step.num = N ∧ step.fetchedIds = some (chunks.getD (N - b) []) ∧
        step.records = [] := by
  intro chunks
  induction chunks with
  | nil => intro b comp store sk _ hlt; simp at hlt
  | cons bids rest ih =>
    intro b comp store sk hb hlt hcomp hfail hstore
    by_cases heq : N = b
    · subst heq
      have hids : (bids :: rest).getD (N - N) [] = bids := by simp
      rw [hids] at hfail
      have hfb := fetchBatch_all_fail net bids sk hfail
      simp only [runChunks]
      rw [if_neg hcomp]
      rw [hfb]
      have hsave : save_checkpoint store N ((([] : List EntryRecord), sk ++ bids)).1 = store := by
        simp [save_checkpoint]
      rw [hsave]
      constructor
      · rw [runChunks_store_high net N rest (N + 1) comp store _ (by omega)]
        exact hstore
      · refine ⟨⟨N, some bids, (([] : List EntryRecord), sk ++ bids).1⟩,
          List.mem_cons_self _ _, rfl, ?_, rfl⟩
        rw [hids]
    · have hb2 : b < N := by omega
      have harith : N - b = (N - (b + 1)) + 1 := by omega
      have hgetD : (bids :: rest).getD (N - b) [] = rest.getD (N - (b + 1)) [] := by
        rw [harith]
        rfl
      rw [hgetD] at hfail
      simp only [runChunks]
      by_cases hmem : b ∈ comp
      · rw [if_pos hmem]
        obtain ⟨hst, step, hstep, hs1, hs2, hs3⟩ := ih (b + 1) comp store sk (by omega)
          (by simp only [List.length_cons] at hlt; omega) hcomp hfail hstore
        refine ⟨hst, ⟨step, List.mem_cons_of_mem _ hstep, hs1, ?_, hs3⟩⟩
        rw [hgetD]
        exact hs2
      · rw [if_neg hmem]
        have hstore2 : storeLookup (save_checkpoint store b (fetchBatch net bids sk).1) N
            = none := by
          rw [storeLookup_save_of_ne store b _ N (by omega)]
          exact hstore
        obtain ⟨hst, step, hstep, hs1, hs2, hs3⟩ := ih (b + 1) comp _ _ (by omega)
          (by simp only [List.length_cons] at hlt; omega) hcomp hfail hstore2
        refine ⟨hst, ⟨step, List.mem_cons_of_mem _ hstep, hs1, ?_, hs3⟩⟩
        rw [hgetD]
        exact hs2

/-- C1: when batch `N` has a checkpoint artifact at the start of a run, the
batch loop visits batch numbers in strictly increasing order, batch `N`'s
step fetches no identifier and contributes exactly the records reloaded from
the artifact, and `all_data` is the concatenation of the per-batch
contributions in that order. -/
theorem resume_skips_checkpointed_batch (net : String → Except Unit DetailPage)
    (store : Store) (ids : List String) (N : Nat) (file : List Char)
    (hfile : storeLookup store N = some file)
    (h1 : 1 ≤ N) (h2 : N - 1 < (chunkList ids).length) :
    ((run_batches net store ids).trace.map (fun s => s.num) =
        List.range' 1 (chunkList ids).length) ∧
    (∃ step ∈ (run_batches net store ids).trace,
        step.num = N ∧ step.fetchedIds = none ∧ step.records = load_checkpoint file) ∧
    (run_batches net store ids).all_data = traceRecords (run_batches net store ids).trace := by
  unfold run_batches
  refine ⟨runChunks_trace_nums net (chunkList ids) 1 _ store [], ?_,
    runChunks_all_data net (chunkList ids) 1 _ store []⟩
  exact runChunks_completed_batch net N file (chunkList ids) 1
    (load_completed_batches store) store []
    (storeLookup_mem_keys N file store hfile) hfile h1 h2

/-- Witness for C1: a one-batch run whose only batch is checkpointed reloads
it without fetching. -/
theorem resume_skips_checkpointed_batch_instance :
    ∃ step ∈ (run_batches (fun _ => Except.error ()) [(1, ['x'])] ["AAA"]).trace,
      step.num = 1 ∧ step.fetchedIds = none ∧ step.records = load_checkpoint ['x'] :=
  (resume_skips_checkpointed_batch (fun _ => Except.error ()) [(1, ['x'])] ["AAA"] 1 ['x']
    (by decide) (by decide) (by decide)).2.1

/-- C7: saving an empty record list is a no-op on the checkpoint directory;
consequently a batch whose fetches all fault (an all-skipped batch) leaves no
artifact — its batch number still has no checkpoint after the run — and a
subsequent run fetches that batch again in full. -/
theorem save_empty_noop_and_retry :
    (∀ (store : Store) (batch_id : Nat), save_checkpoint store batch_id [] = store) ∧
    ∀ (net : String → Except Unit DetailPage) (store : Store) (ids : List String) (N : Nat),
      1 ≤ N → N - 1 < (chunkList ids).length →
      storeLookup store N = none →
      (∀ fid ∈ (chunkList ids).getD (N - 1) [],
        net (BASE_URL ++ "/wiki/" ++ fid) = Except.error ()) →
      storeLookup (run_batches net store ids).store N = none ∧
      (∃ step ∈ (run_batches net store ids).trace,
        step.num = N ∧ step.fetchedIds = some ((chunkList ids).getD (N - 1) []) ∧
        step.records = []) ∧
      (∃ step ∈ (run_batches net (run_batches net store ids).store ids).trace,
        step.num = N ∧ step.fetchedIds = some ((chunkList ids).getD (N - 1) []) ∧
        step.records = []) := by
  refine ⟨fun store batch_id => by simp [save_checkpoint], ?_⟩
  intro net store ids N hN hlt hstore hfail
  have run1 := runChunks_all_fail_batch net N (chunkList ids) 1
    (load_completed_batches store) store [] hN hlt
    (storeLookup_none_keys N store hstore) hfail hstore
  have hstore2 : storeLookup (run_batches net store ids).store N = none := run1.1
  have run2 := runChunks_all_fail_batch net N (chunkList ids) 1
    (load_completed_batches (run_batches net store ids).store)
    (run_batches net store ids).store [] hN hlt
    (storeLookup_none_keys N _ hstore2) hfail hstore2
  exact ⟨hstore2, run1.2, run2.2⟩

/-- Witness for C7: a run over one identifier whose fetch faults saves no
artifact and refetches the batch on the rerun. -/
theorem save_empty_noop_and_retry_instance :
    storeLookup (run_batches (fun _ => Except.error ()) [] ["AAA"]).store 1 = none :=
  (save_empty_noop_and_retry.2 (fun _ => Except.error ()) [] ["AAA"] 1
    (by decide) (by decide) (by decide) (fun fid _ => rfl)).1

/-- A non-empty list has a last element. -/
theorem getLast_some_of_ne_nil (l : List String) (h : l ≠ []) :
    ∃ u, l.getLast? = some u := by
  induction l with
  | nil => exact absurd rfl h
  | cons a t ih =>
    cases t with
    | nil => exact ⟨a, rfl⟩
    | cons b t2 =>
      obtain ⟨u, hu⟩ := ih (by simp)
      exact ⟨u, by rw [List.getLast?_cons_cons]; exact hu⟩

/-- Appending on the right keeps the head of a non-empty list. -/
theorem head_append_of_ne_nil (l : List String) (x : String) (h : l ≠ []) :
    (l ++ [x]).head? = l.head? := by
  cases l with
  | nil => exact absurd rfl h
  | cons a t => rfl

/-- An element of a list is in its front part or is its last element. -/
theorem mem_dropLast_or_getLast (l : List String) (u : String) (h : u ∈ l) :
    u ∈ l.dropLast ∨ l.getLast? = some u := by
  induction l with
  | nil => cases h
  | cons a t ih =>
    cases t with
    | nil =>
      rcases List.mem_singleton.mp h with rfl
      right
      rfl
    | cons b t2 =>
      rcases List.mem_cons.mp h with rfl | hmem
      · left
        rw [List.dropLast_cons₂]
        exact List.mem_cons_self _ _
      · rcases ih hmem with hd | hl
        · left
          rw [List.dropLast_cons₂]
          exact List.mem_cons_of_mem _ hd
        · right
          rw [List.getLast?_cons_cons]
          exact hl

/-- When the pagination loop returns a URL list, it is non-empty and starts
where the accumulated list started. -/
theorem pagesLoop_ok_head (net : String → Except Unit (Option String)) :
    ∀ (fuel : Nat) (urls l : List String),
      urls ≠ [] → pagesLoop net fuel urls = some (Except.ok l) →
      l ≠ [] ∧ l.head? = urls.head? := by
  intro fuel
  induction fuel with
  | zero => intro urls l _ h; simp [pagesLoop] at h
  | succ m ih =>
    intro urls l hne h
    obtain ⟨u, hu⟩ := getLast_some_of_ne_nil urls hne
    simp only [pagesLoop] at h
    rw [hu] at h
    simp only [] at h
    cases hn : net u with
    | error e =>
      rw [hn] at h
      simp only [] at h
      simp at h
    | ok next =>
      rw [hn] at h
      cases next with
      | none =>
        simp only [] at h
        simp only [Option.some.injEq, Except.ok.injEq] at h
        subst h
        exact ⟨hne, rfl⟩
      | some href =>
        simp only [] at h
        have := ih (urls ++ [BASE_URL ++ href]) l (by simp) h
        exact ⟨this.1, by rw [this.2, head_append_of_ne_nil urls _ hne]⟩

/-- When the pagination loop propagates an error, some fetch produced it. -/
theorem pagesLoop_error_from_net (net : String → Except Unit (Option String)) :
    ∀ (fuel : Nat) (urls : List String) (e : Unit),
      pagesLoop net fuel urls = some (Except.error e) → ∃ u, net u = Except.error e := by
  intro fuel
  induction fuel with
  | zero => intro urls e h; simp [pagesLoop] at h
  | succ m ih =>
    intro urls e h
    simp only [pagesLoop] at h
    cases hu : urls.getLast? with
    | none =>
      rw [hu] at h
      simp only [] at h
      simp at h
    | some u =>
      rw [hu] at h
      simp only [] at h
      cases hn : net u with
      | error e2 =>
        cases e
        cases e2
        exact ⟨u, hn⟩
      | ok next =>
        rw [hn] at h
        cases next with
        | none => simp only [] at h; simp at h
        | some href =>
          simp only [] at h
          exact ih (urls ++ [BASE_URL ++ href]) e h

/-- When the pagination loop returns a URL list, every URL in it other than
those already accumulated before the call was fetched successfully — the
loop fetches `urls[-1]` on every iteration and swallows no fault. -/
theorem pagesLoop_ok_net (net : String → Except Unit (Option String)) :
    ∀ (fuel : Nat) (urls l : List String),
      pagesLoop net fuel urls = some (Except.ok l) →
      ∀ u ∈ l, u ∈ urls.dropLast ∨ ∃ page, net u = Except.ok page := by
  intro fuel
  induction fuel with
  | zero => intro urls l h; simp [pagesLoop] at h
  | succ m ih =>
    intro urls l h
    simp only [pagesLoop] at h
    cases hu : urls.getLast? with
    | none =>
      rw [hu] at h
      simp only [] at h
      simp only [Option.some.injEq, Except.ok.injEq] at h
      subst h
      intro u hmem
      obtain ⟨v, hv⟩ := getLast_some_of_ne_nil urls (List.ne_nil_of_mem hmem)
      rw [hv] at hu
      cases hu
    | some u0 =>
      rw [hu] at h
      simp only [] at h
      cases hn : net u0 with
      | error e =>
        rw [hn] at h
        simp only [] at h
        simp at h
      | ok next =>
        rw [hn] at h
        cases next with
        | none =>
          simp only [] at h
          simp only [Option.some.injEq, Except.ok.injEq] at h
          subst h
          intro u hmem
          rcases mem_dropLast_or_getLast urls u hmem with hd | hl
          · exact Or.inl hd
          · right
            rw [hl] at hu
            obtain rfl : u = u0 := by injection hu
            exact ⟨none, hn⟩
        | some href =>
          simp only [] at h
          intro u hmem
          rcases ih (urls ++ [BASE_URL ++ href]) l h u hmem with hd | hok
          · rw [List.dropLast_concat] at hd
            rcases mem_dropLast_or_getLast urls u hd with hd2 | hl
            · exact Or.inl hd2
            · right
              rw [hl] at hu
              obtain rfl : u = u0 := by injection hu
              exact ⟨some href, hn⟩
          · exact Or.inr hok

/-- A fault of the fetch the loop is about to issue — at any loop state, so
on any listing page, not only the seed — is returned as the loop's result:
no partial pagination recovery. -/
theorem pagesLoop_fault_propagates (net : String → Except Unit (Option String))
    (m : Nat) (urls : List String) (u : String) (e : Unit)
    (hu : urls.getLast? = some u) (h : net u = Except.error e) :
    pagesLoop net (m + 1) urls = some (Except.error e) := by
  simp only [pagesLoop]
  rw [hu]
  simp only []
  rw [h]

/-- C8: whenever `get_listing_pages` returns a URL list, the list is
non-empty, its first element is the seed `LISTING_URL` (the seed is kept
even when no "next 500" link exists), and every URL in the list was fetched
successfully — a completed pagination swallowed no fault on any listing
page; an error result always stems from a network fault; and a fault of the
pending fetch at any loop state — so on any listing page, not only the seed
— is returned as the run's error: pagination faults are fatal, with no
partial recovery. -/
theorem listing_pages_contract (net : String → Except Unit (Option String)) (fuel : Nat) :
    (∀ l, get_listing_pages net fuel = some (Except.ok l) →
      l ≠ [] ∧ l.head? = some LISTING_URL ∧ ∀ u ∈ l, ∃ page, net u = Except.ok page) ∧
    (∀ e, get_listing_pages net fuel = some (Except.error e) →
      ∃ u, net u = Except.error e) ∧
    (∀ (m : Nat) (urls : List String) (u : String) (e : Unit),
      urls.getLast? = some u → net u = Except.error e →
      pagesLoop net (m + 1) urls = some (Except.error e)) := by
  refine ⟨?_, ?_, ?_⟩
  · intro l h
    have h1 := pagesLoop_ok_head net fuel [LISTING_URL] l (by simp) h
    refine ⟨h1.1, by rw [h1.2]; rfl, ?_⟩
    intro u hmem
    rcases pagesLoop_ok_net net fuel [LISTING_URL] l h u hmem with hd | hok
    · simp at hd
    · exact hok
  · intro e h
    exact pagesLoop_error_from_net net fuel [LISTING_URL] e h
  · intro m urls u e hu hn
    exact pagesLoop_fault_propagates net m urls u e hu hn

/-- Witness for C8: a network fault on the pending fetch — here at the loop
state two pages deep — aborts the run with that error. -/
theorem listing_pages_contract_instance :
    pagesLoop (fun _ => Except.error ()) 3 [LISTING_URL, "page2"] =
      some (Except.error ()) :=
  (listing_pages_contract (fun _ => Except.error ()) 3).2.2 2
    [LISTING_URL, "page2"] "page2" () rfl rfl

/-- C9: at the end of every completed run the primary merged artifact
`flavonoids_final.csv` is written exactly once, unconditionally (also with an
empty record set), and the secondary artifact `skipped_entries.csv` is
written exactly once precisely when the skipped list is non-empty (zero
times otherwise). -/
theorem final_artifacts_write_counts (netL : String → Except Unit (Option String))
    (netA : String → List String) (netF : String → Except Unit DetailPage)
    (fuel : Nat) (store : Store) :
    match main_run netL netA netF fuel store with
    | some (Except.ok (out, files)) =>
      files.countP (fun f => f.1 == "flavonoids_final.csv") = 1 ∧
      files.countP (fun f => f.1 == "skipped_entries.csv") =
        (if out.skipped.isEmpty then 0 else 1)
    | _ => True := by
  unfold main_run
  cases get_listing_pages netL fuel with
  | none => trivial
  | some r =>
    cases r with
    | error e => trivial
    | ok pages =>
      simp only []
      by_cases hsk :
        (run_batches netF store
          (pages.foldl (fun acc p => acc ++ extract_ids (netA p)) [])).skipped.isEmpty
      · rw [if_pos hsk, if_pos hsk]
        constructor
        · simp [List.countP, List.countP.go]
        · simp [List.countP, List.countP.go]
      · rw [if_neg hsk, if_neg hsk]
        constructor
        · simp [List.countP, List.countP.go]
        · simp [List.countP, List.countP.go]
